import Mathlib

/-!
Verification development for the kikosim round-based virtual-time simulator.

The definitions below are shallow embeddings of the Python sources:

* `KikoSim.Duration`      — `ra_transformer_lib/duration_validation.py` (`parse_duration`)
* `KikoSim.ResourceAgent` — `ra_transformer_lib/templates/resource_agent.py`
* `KikoSim.TimeService`   — `ra_transformer_lib/templates/timeservice_agent.py`

Python floats are modelled as exact rationals `ℚ`; Python exceptions as
`Option` (`none` = the function raised); Python dicts as association lists
or as total functions with pointwise update; the regex character classes
`\d` and `\s` are modelled over their ASCII range.
-/

namespace KikoSim
namespace Duration

/-- Characters matched by the regex class `\d` (ASCII digits). -/
def isPyDigit (c : Char) : Bool := decide ('0' ≤ c) && decide (c ≤ '9')

/-- Characters matched by the regex class `\s` and stripped by `str.strip()`
(ASCII whitespace). -/
def isPySpace (c : Char) : Bool :=
  c = ' ' || c = '\t' || c = '\n' || c = '\r' || c = '\x0b' || c = '\x0c'

/-- Decimal value of a digit string. -/
def digitsToVal (ds : List Char) : ℕ :=
  ds.foldl (fun a c => 10 * a + (c.toNat - 48)) 0

/-- A match of the number group `(\d+\.?\d*)`: the digits before and the
digits after the decimal point. -/
def NumMatch : Type := List Char × List Char

instance : DecidableEq NumMatch := by unfold NumMatch; infer_instance

/-- The value denoted by a matched number group, as read by Python
`float` on the matched text (exact, since the text is a finite decimal). -/
def numVal (p : NumMatch) : ℚ :=
  (digitsToVal p.1 : ℚ) + (digitsToVal p.2 : ℚ) / (10 : ℚ) ^ p.2.length

/-- Python `str.strip()` restricted to ASCII whitespace. -/
def pyStrip (cs : List Char) : List Char :=
  ((cs.dropWhile isPySpace).reverse.dropWhile isPySpace).reverse

/-- Matcher for the regex group `(\d+\.?\d*)`, anchored at the head of the
list, returning the matched digits and the unconsumed rest. -/
def matchNumber (cs : List Char) : Option (NumMatch × List Char) :=
  let ds := cs.takeWhile isPyDigit
  let r1 := cs.dropWhile isPyDigit
  if ds.isEmpty then none
  else
    match r1 with
    | '.' :: r2 => some ((ds, r2.takeWhile isPyDigit), r2.dropWhile isPyDigit)
    | _ => some ((ds, []), r1)

/-- The unit characters of the regex class `[dhms]`. -/
def unitChars : List Char := ['d', 'h', 'm', 's']

/-- Matcher for the regex group `([dhms]?)`; an empty match yields the
default unit `'d'` (the source evaluates `group or 'd'`). -/
def takeUnit (cs : List Char) : Char × List Char :=
  match cs with
  | c :: r => if c ∈ unitChars then (c, r) else ('d', c :: r)
  | [] => ('d', [])

/-- The `unit_multipliers` table converting a unit to days. -/
def unitMult (c : Char) : ℚ :=
  if c = 'd' then 1
  else if c = 'h' then 1 / 24
  else if c = 'm' then 1 / 1440
  else if c = 's' then 1 / 86400
  else 0

/-- Matcher for `^(\d+\.?\d*)\s*([dhms]?)\s*±\s*(\d+\.?\d*)\s*([dhms]?)$`. -/
def matchNormal (cs : List Char) : Option (NumMatch × Char × NumMatch × Char) :=
  match matchNumber cs with
  | none => none
  | some (m, r1) =>
    let r2 := r1.dropWhile isPySpace
    let p3 := takeUnit r2
    let r4 := p3.2.dropWhile isPySpace
    match r4 with
    | '±' :: r5 =>
      match matchNumber (r5.dropWhile isPySpace) with
      | none => none
      | some (sm, r7) =>
        let r8 := r7.dropWhile isPySpace
        let p9 := takeUnit r8
        if p9.2 = [] then some (m, p3.1, sm, p9.1) else none
    | _ => none

/-- Matcher for `^(\d+\.?\d*)\s*([dhms]?)$`. -/
def matchFixed (cs : List Char) : Option (NumMatch × Char) :=
  match matchNumber cs with
  | none => none
  | some (m, r1) =>
    let p2 := takeUnit (r1.dropWhile isPySpace)
    if p2.2 = [] then some (m, p2.1) else none

/-- Core of `parse_duration` on the character list of the input string.
`none` models a raised `ValueError`. -/
def parseDurationChars (cs0 : List Char) : Option (ℚ × ℚ) :=
  let cs := pyStrip cs0
  match matchNormal cs with
  | some (m, mu, sm, su) =>
      let md := numVal m * unitMult mu
      let sd := numVal sm * unitMult su
      if md - 2 * sd < 0 then none else some (md, sd)
  | none =>
    match matchFixed cs with
    | some (m, u) => some (numVal m * unitMult u, 0)
    | none => none

/-- `parse_duration` from `duration_validation.py`: parses a duration
string into mean and standard deviation in days; `none` models the raised
`ValueError`. -/
def parse_duration (s : String) : Option (ℚ × ℚ) := parseDurationChars s.data

example : matchNormal "2d±1.5d".data = some ((['2'], []), 'd', (['1'], ['5']), 'd') := by decide
example : matchNormal "2d±0.5d".data = some ((['2'], []), 'd', (['0'], ['5']), 'd') := by decide
example : matchFixed "1.5d".data = some ((['1'], ['5']), 'd') := by decide
example : matchFixed "30m".data = some ((['3', '0'], []), 'm') := by decide
example : matchFixed "2 d".data = some ((['2'], []), 'd') := by decide
example : matchFixed "2.".data = some ((['2'], []), 'd') := by decide
example : matchFixed "0".data = some ((['0'], []), 'd') := by decide
example : parse_duration "xyz" = none := by decide
example : parse_duration "2d3" = none := by decide
example : parse_duration "2d±1.5d" = none := by
  have h : matchNormal (pyStrip "2d±1.5d".data) = some ((['2'], []), 'd', (['1'], ['5']), 'd') := by
    decide
  simp only [parse_duration, parseDurationChars, h]
  norm_num [numVal, unitMult, show digitsToVal ['2'] = 2 from by decide,
    show digitsToVal ['1'] = 1 from by decide, show digitsToVal ['5'] = 5 from by decide,
    show digitsToVal [] = 0 from by decide]

example : parse_duration "2d±0.5d" = some (2, 1 / 2) := by
  have h : matchNormal (pyStrip "2d±0.5d".data) = some ((['2'], []), 'd', (['0'], ['5']), 'd') := by
    decide
  simp only [parse_duration, parseDurationChars, h]
  norm_num [numVal, unitMult, show digitsToVal ['2'] = 2 from by decide,
    show digitsToVal ['0'] = 0 from by decide, show digitsToVal ['5'] = 5 from by decide,
    show digitsToVal [] = 0 from by decide]

example : parse_duration "0" = some (0, 0) := by
  have h1 : matchNormal (pyStrip "0".data) = none := by decide
  have h2 : matchFixed (pyStrip "0".data) = some ((['0'], []), 'd') := by decide
  simp only [parse_duration, parseDurationChars, h1, h2]
  norm_num [numVal, unitMult, show digitsToVal ['0'] = 0 from by decide,
    show digitsToVal [] = 0 from by decide]

lemma takeWhile_append_of_all {p : Char → Bool} :
    ∀ {l r : List Char}, (∀ c ∈ l, p c = true) →
      (∀ c, r.head? = some c → p c = false) → (l ++ r).takeWhile p = l
  | [], r, _, hr => by
      cases r with
      | nil => rfl
      | cons c cs => simp [List.takeWhile_cons, hr c rfl]
  | a :: l, r, hl, hr => by
      have ha : p a = true := hl a (List.mem_cons_self a l)
      have ih := takeWhile_append_of_all (fun c hc => hl c (List.mem_cons_of_mem a hc)) hr
      simp [List.takeWhile_cons, ha, ih]

lemma dropWhile_append_of_all {p : Char → Bool} :
    ∀ {l r : List Char}, (∀ c ∈ l, p c = true) →
      (∀ c, r.head? = some c → p c = false) → (l ++ r).dropWhile p = r
  | [], r, _, hr => by
      cases r with
      | nil => rfl
      | cons c cs => simp [List.dropWhile_cons, hr c rfl]
  | a :: l, r, hl, hr => by
      have ha : p a = true := hl a (List.mem_cons_self a l)
      have ih := dropWhile_append_of_all (fun c hc => hl c (List.mem_cons_of_mem a hc)) hr
      simp [List.dropWhile_cons, ha, ih]

lemma dropWhile_eq_self_of_head {p : Char → Bool} {l : List Char}
    (h : ∀ c, l.head? = some c → p c = false) : l.dropWhile p = l := by
  cases l with
  | nil => rfl
  | cons c cs => simp [List.dropWhile_cons, h c rfl]

lemma mem_of_mem_dropWhile {p : Char → Bool} {l : List Char} {c : Char}
    (h : c ∈ l.dropWhile p) : c ∈ l :=
  (List.dropWhile_sublist p).mem h

lemma mem_of_mem_takeWhile {p : Char → Bool} {l : List Char} {c : Char}
    (h : c ∈ l.takeWhile p) : c ∈ l :=
  (List.takeWhile_sublist p).mem h

lemma pyStrip_eq_self {cs : List Char}
    (h1 : ∀ c, cs.head? = some c → isPySpace c = false)
    (h2 : ∀ c, cs.getLast? = some c → isPySpace c = false) : pyStrip cs = cs := by
  unfold pyStrip
  rw [dropWhile_eq_self_of_head h1]
  rw [dropWhile_eq_self_of_head (by simpa using h2), List.reverse_reverse]

lemma isPySpace_of_isPyDigit {c : Char} (h : isPyDigit c = true) : isPySpace c = false := by
  simp only [isPyDigit, Bool.and_eq_true, decide_eq_true_eq] at h
  obtain ⟨h0, _⟩ := h
  simp only [isPySpace, Bool.or_eq_false_iff, decide_eq_false_iff_not]
  refine ⟨⟨⟨⟨⟨?_, ?_⟩, ?_⟩, ?_⟩, ?_⟩, ?_⟩ <;> rintro rfl <;> revert h0 <;> decide

lemma mem_unitChars_iff {u : Char} :
    u ∈ unitChars ↔ u = 'd' ∨ u = 'h' ∨ u = 'm' ∨ u = 's' := by
  simp [unitChars]

lemma unit_not_digit {u : Char} (hu : u ∈ unitChars) : isPyDigit u = false := by
  rcases mem_unitChars_iff.mp hu with rfl | rfl | rfl | rfl <;> decide

lemma unit_not_space {u : Char} (hu : u ∈ unitChars) : isPySpace u = false := by
  rcases mem_unitChars_iff.mp hu with rfl | rfl | rfl | rfl <;> decide

lemma unit_ne_dot {u : Char} (hu : u ∈ unitChars) : u ≠ '.' := by
  rcases mem_unitChars_iff.mp hu with rfl | rfl | rfl | rfl <;> decide

/-- Evaluation of the number matcher when the matched text has no decimal
point: the fractional digit group is empty. -/
lemma matchNumber_nodot {i r : List Char} (hi : i ≠ [])
    (hdi : ∀ c ∈ i, isPyDigit c = true)
    (hr : ∀ c, r.head? = some c → isPyDigit c = false ∧ c ≠ '.') :
    matchNumber (i ++ r) = some ((i, []), r) := by
  unfold matchNumber
  rw [takeWhile_append_of_all hdi (fun c hc => (hr c hc).1),
      dropWhile_append_of_all hdi (fun c hc => (hr c hc).1)]
  simp only [List.isEmpty_iff, hi, if_false]
  cases r with
  | nil => rfl
  | cons c cs =>
      have hne : c ≠ '.' := (hr c rfl).2
      split
      next heq =>
        rw [List.cons.injEq] at heq
        exact absurd heq.1 hne
      next => rfl

/-- Evaluation of the number matcher when the matched text has a decimal
point. -/
lemma matchNumber_dot {i f r : List Char} (hi : i ≠ [])
    (hdi : ∀ c ∈ i, isPyDigit c = true) (hdf : ∀ c ∈ f, isPyDigit c = true)
    (hr : ∀ c, r.head? = some c → isPyDigit c = false) :
    matchNumber (i ++ '.' :: (f ++ r)) = some ((i, f), r) := by
  unfold matchNumber
  have hdot : ∀ c, ('.' :: (f ++ r)).head? = some c → isPyDigit c = false := by
    intro c hc
    cases hc
    decide
  rw [takeWhile_append_of_all hdi hdot, dropWhile_append_of_all hdi hdot]
  simp only [List.isEmpty_iff, hi, if_false]
  rw [takeWhile_append_of_all hdf hr, dropWhile_append_of_all hdf hr]

lemma takeUnit_unit {u : Char} (r : List Char) (hu : u ∈ unitChars) :
    takeUnit (u :: r) = (u, r) := by
  simp only [takeUnit, hu, if_true]

lemma takeUnit_rest_mem {cs : List Char} : ∀ c ∈ (takeUnit cs).2, c ∈ cs := by
  intro c hc
  cases cs with
  | nil => exact absurd hc (List.not_mem_nil c)
  | cons a l =>
      rw [takeUnit] at hc
      by_cases ha : a ∈ unitChars
      · rw [if_pos ha] at hc
        exact List.mem_cons_of_mem a hc
      · rwa [if_neg ha] at hc

lemma matchNumber_rest_mem {cs : List Char} {m : NumMatch} {r : List Char}
    (h : matchNumber cs = some (m, r)) : ∀ c ∈ r, c ∈ cs := by
  intro c hc
  simp only [matchNumber] at h
  split at h
  · cases h
  · split at h
    next r2 heq =>
      cases h
      have h1 : c ∈ '.' :: r2 := List.mem_cons_of_mem _ (mem_of_mem_dropWhile hc)
      rw [← heq] at h1
      exact mem_of_mem_dropWhile h1
    next =>
      cases h
      exact mem_of_mem_dropWhile hc

/-- A string containing no `'±'` character cannot match the
normal-distribution regex. -/
lemma matchNormal_eq_none_of_no_pm {cs : List Char} (h : '±' ∉ cs) :
    matchNormal cs = none := by
  rw [matchNormal]
  cases hm : matchNumber cs with
  | none => rfl
  | some p =>
    obtain ⟨m, r1⟩ := p
    have hr1 : ∀ c ∈ r1, c ∈ cs := matchNumber_rest_mem hm
    simp only []
    split
    next r5 heq =>
      exfalso
      apply h
      apply hr1
      apply mem_of_mem_dropWhile
      apply takeUnit_rest_mem
      apply mem_of_mem_dropWhile (p := isPySpace)
      rw [heq]
      exact List.mem_cons_self _ _
    next => rfl

/-- The characters contributed by the optional unit group. -/
def unitPart : Option Char → List Char
  | some x => [x]
  | none => []

/-- The characters of a match of the number group `(\d+\.?\d*)`: integer
digits, then when `dot` is set a decimal point and the fractional digits. -/
def numPart (i f : List Char) (dot : Bool) : List Char :=
  i ++ (if dot then '.' :: f else [])

/-- The characters of a fixed-format duration string `<number><unit>`,
with the unit optional. -/
def fixedChars (i f : List Char) (dot : Bool) (u : Option Char) : List Char :=
  numPart i f dot ++ unitPart u

/-- The characters of a normal-distribution duration string
`<number><unit> ± <number><unit>` with optional whitespace runs around the
`'±'`. -/
def normalChars (i1 f1 : List Char) (dot1 : Bool) (u1 : Char) (sp1 sp2 : List Char)
    (i2 f2 : List Char) (dot2 : Bool) (u2 : Char) : List Char :=
  numPart i1 f1 dot1 ++ ([u1] ++ (sp1 ++ ('±' :: (sp2 ++ (numPart i2 f2 dot2 ++ [u2])))))

lemma digit_ne_pm {c : Char} (h : isPyDigit c = true) : c ≠ '±' := by
  rintro rfl
  exact absurd h (by decide)

lemma unit_ne_pm {u : Char} (hu : u ∈ unitChars) : u ≠ '±' := by
  rcases mem_unitChars_iff.mp hu with rfl | rfl | rfl | rfl <;> decide

lemma unitPart_head {u : Option Char} (hu : ∀ x, u = some x → x ∈ unitChars) :
    ∀ c, (unitPart u).head? = some c → isPyDigit c = false ∧ c ≠ '.' := by
  intro c hc
  cases u with
  | none => cases hc
  | some x =>
      cases hc
      exact ⟨unit_not_digit (hu _ rfl), unit_ne_dot (hu _ rfl)⟩

/-- Evaluation of the number matcher on the characters of a number group
followed by a rest that cannot extend the match. -/
lemma matchNumber_numPart {i f : List Char} {dot : Bool} (r : List Char) (hi : i ≠ [])
    (hdi : ∀ c ∈ i, isPyDigit c = true) (hdf : ∀ c ∈ f, isPyDigit c = true)
    (hnd : dot = false → f = [])
    (hr : ∀ c, r.head? = some c → isPyDigit c = false ∧ c ≠ '.') :
    matchNumber (numPart i f dot ++ r) = some ((i, f), r) := by
  cases dot with
  | false =>
      have hf : f = [] := hnd rfl
      subst hf
      simp only [numPart, if_neg (by decide : ¬(false = true)), List.append_nil]
      exact matchNumber_nodot hi hdi hr
  | true =>
      simp only [numPart, if_true, List.append_assoc, List.cons_append]
      exact matchNumber_dot hi hdi hdf (fun c hc => (hr c hc).1)

lemma takeUnit_dropSpace_unitPart {u : Option Char}
    (hu : ∀ x, u = some x → x ∈ unitChars) :
    takeUnit ((unitPart u).dropWhile isPySpace) = (u.getD 'd', []) := by
  cases u with
  | none => rfl
  | some x =>
      have hx := hu x rfl
      have hd : ([x].dropWhile isPySpace) = [x] :=
        dropWhile_eq_self_of_head (by
          intro c hc
          cases hc
          exact unit_not_space hx)
      rw [unitPart, hd, takeUnit_unit _ hx]
      rfl

/-- Evaluation of the fixed-format matcher on a well-formed fixed duration
string. -/
lemma matchFixed_fixedChars {i f : List Char} {dot : Bool} {u : Option Char} (hi : i ≠ [])
    (hdi : ∀ c ∈ i, isPyDigit c = true) (hdf : ∀ c ∈ f, isPyDigit c = true)
    (hnd : dot = false → f = []) (hu : ∀ x, u = some x → x ∈ unitChars) :
    matchFixed (fixedChars i f dot u) = some ((i, f), u.getD 'd') := by
  rw [matchFixed, fixedChars,
    matchNumber_numPart (unitPart u) hi hdi hdf hnd (unitPart_head hu)]
  simp [takeUnit_dropSpace_unitPart hu]

lemma fixedChars_mem_cases {i f : List Char} {dot : Bool} {u : Option Char} {c : Char}
    (hc : c ∈ fixedChars i f dot u) :
    c ∈ i ∨ c = '.' ∨ c ∈ f ∨ (∃ x, u = some x ∧ c = x) := by
  rcases List.mem_append.mp hc with h | h
  · rcases List.mem_append.mp h with h | h
    · exact Or.inl h
    · cases dot with
      | false => simp at h
      | true =>
          rw [if_pos rfl] at h
          rcases List.mem_cons.mp h with h | h
          · exact Or.inr (Or.inl h)
          · exact Or.inr (Or.inr (Or.inl h))
  · cases u with
    | none => simp [unitPart] at h
    | some x =>
        rcases List.mem_singleton.mp h with rfl
        exact Or.inr (Or.inr (Or.inr ⟨c, rfl, rfl⟩))

lemma pyStrip_eq_self_of_all {cs : List Char}
    (h : ∀ c ∈ cs, isPySpace c = false) : pyStrip cs = cs := by
  refine pyStrip_eq_self (fun c hc => ?_) (fun c hc => ?_)
  · cases cs with
    | nil => cases hc
    | cons a l =>
        cases hc
        exact h _ (List.mem_cons_self _ _)
  · obtain ⟨hne, rfl⟩ := List.mem_getLast?_eq_getLast (Option.mem_def.mpr hc)
    exact h _ (List.getLast_mem hne)

/-- Fixed-format duration strings: `parse_duration` returns the denoted
value converted to days (default unit `'d'`), with standard deviation 0. -/
theorem parse_duration_fixed (i f : List Char) (dot : Bool) (u : Option Char)
    (hi : i ≠ []) (hdi : ∀ c ∈ i, isPyDigit c = true) (hdf : ∀ c ∈ f, isPyDigit c = true)
    (hnd : dot = false → f = []) (hu : ∀ x, u = some x → x ∈ unitChars) :
    parse_duration (String.mk (fixedChars i f dot u)) =
      some (numVal (i, f) * unitMult (u.getD 'd'), 0) := by
  have hclass : ∀ c ∈ fixedChars i f dot u,
      isPySpace c = false ∧ c ≠ '±' := by
    intro c hc
    rcases fixedChars_mem_cases hc with h | h | h | ⟨x, hx, rfl⟩
    · exact ⟨isPySpace_of_isPyDigit (hdi c h), digit_ne_pm (hdi c h)⟩
    · subst h
      exact ⟨by decide, by decide⟩
    · exact ⟨isPySpace_of_isPyDigit (hdf c h), digit_ne_pm (hdf c h)⟩
    · exact ⟨unit_not_space (hu _ hx), unit_ne_pm (hu _ hx)⟩
  have hstrip : pyStrip (fixedChars i f dot u) = fixedChars i f dot u :=
    pyStrip_eq_self_of_all (fun c hc => (hclass c hc).1)
  have hnopm : matchNormal (fixedChars i f dot u) = none :=
    matchNormal_eq_none_of_no_pm (fun hmem => (hclass _ hmem).2 rfl)
  show parseDurationChars (fixedChars i f dot u) = _
  rw [parseDurationChars]
  simp only [hstrip, hnopm, matchFixed_fixedChars hi hdi hdf hnd hu]

/-- Normal-distribution duration strings `<number><unit> ± <number><unit>`
(with arbitrary whitespace runs around the `'±'`): `parse_duration` rejects
the string exactly when the converted mean minus twice the converted
standard deviation is negative, and otherwise returns both in days. -/
theorem parse_duration_normal (i1 f1 i2 f2 sp1 sp2 : List Char) (dot1 dot2 : Bool)
    (u1 u2 : Char)
    (hi1 : i1 ≠ []) (hdi1 : ∀ c ∈ i1, isPyDigit c = true)
    (hdf1 : ∀ c ∈ f1, isPyDigit c = true) (hnd1 : dot1 = false → f1 = [])
    (hi2 : i2 ≠ []) (hdi2 : ∀ c ∈ i2, isPyDigit c = true)
    (hdf2 : ∀ c ∈ f2, isPyDigit c = true) (hnd2 : dot2 = false → f2 = [])
    (hu1 : u1 ∈ unitChars) (hu2 : u2 ∈ unitChars)
    (hs1 : ∀ c ∈ sp1, isPySpace c = true) (hs2 : ∀ c ∈ sp2, isPySpace c = true) :
    parse_duration (String.mk (normalChars i1 f1 dot1 u1 sp1 sp2 i2 f2 dot2 u2)) =
      if numVal (i1, f1) * unitMult u1 - 2 * (numVal (i2, f2) * unitMult u2) < 0 then none
      else some (numVal (i1, f1) * unitMult u1, numVal (i2, f2) * unitMult u2) := by
  have hhead : ∀ c, (normalChars i1 f1 dot1 u1 sp1 sp2 i2 f2 dot2 u2).head? = some c →
      isPySpace c = false := by
    obtain ⟨a, t, h⟩ := List.exists_cons_of_ne_nil hi1
    intro c hc
    rw [normalChars, numPart, h] at hc
    simp only [List.cons_append, List.head?_cons, Option.some.injEq] at hc
    subst hc
    exact isPySpace_of_isPyDigit (hdi1 _ (h ▸ List.mem_cons_self a t))
  have hlast : ∀ c, (normalChars i1 f1 dot1 u1 sp1 sp2 i2 f2 dot2 u2).getLast? = some c →
      isPySpace c = false := by
    intro c hc
    have hflat : normalChars i1 f1 dot1 u1 sp1 sp2 i2 f2 dot2 u2 =
        (numPart i1 f1 dot1 ++ [u1] ++ sp1 ++ '±' :: (sp2 ++ numPart i2 f2 dot2)) ++ [u2] := by
      simp [normalChars, List.append_assoc]
    rw [hflat, List.getLast?_concat, Option.some.injEq] at hc
    subst hc
    exact unit_not_space hu2
  have hstrip : pyStrip (normalChars i1 f1 dot1 u1 sp1 sp2 i2 f2 dot2 u2) =
      normalChars i1 f1 dot1 u1 sp1 sp2 i2 f2 dot2 u2 := pyStrip_eq_self hhead hlast
  have hm1 : matchNumber (normalChars i1 f1 dot1 u1 sp1 sp2 i2 f2 dot2 u2) =
      some ((i1, f1), [u1] ++ (sp1 ++ ('±' :: (sp2 ++ (numPart i2 f2 dot2 ++ [u2]))))) := by
    rw [normalChars]
    refine matchNumber_numPart _ hi1 hdi1 hdf1 hnd1 ?_
    intro c hc
    cases hc
    exact ⟨unit_not_digit hu1, unit_ne_dot hu1⟩
  have hdrop1 : ([u1] ++ (sp1 ++ ('±' :: (sp2 ++ (numPart i2 f2 dot2 ++ [u2]))))).dropWhile
      isPySpace = [u1] ++ (sp1 ++ ('±' :: (sp2 ++ (numPart i2 f2 dot2 ++ [u2])))) :=
    dropWhile_eq_self_of_head (fun c hc => by cases hc; exact unit_not_space hu1)
  have htu1 : takeUnit ([u1] ++ (sp1 ++ ('±' :: (sp2 ++ (numPart i2 f2 dot2 ++ [u2]))))) =
      (u1, sp1 ++ ('±' :: (sp2 ++ (numPart i2 f2 dot2 ++ [u2])))) :=
    takeUnit_unit _ hu1
  have hdrop2 : (sp1 ++ ('±' :: (sp2 ++ (numPart i2 f2 dot2 ++ [u2])))).dropWhile isPySpace =
      '±' :: (sp2 ++ (numPart i2 f2 dot2 ++ [u2])) :=
    dropWhile_append_of_all hs1 (fun c hc => by cases hc; decide)
  have hnp2 : ∀ c, (numPart i2 f2 dot2 ++ [u2]).head? = some c → isPySpace c = false := by
    obtain ⟨a, t, h⟩ := List.exists_cons_of_ne_nil hi2
    intro c hc
    rw [numPart, h] at hc
    simp only [List.cons_append, List.head?_cons, Option.some.injEq] at hc
    subst hc
    exact isPySpace_of_isPyDigit (hdi2 _ (h ▸ List.mem_cons_self a t))
  have hdrop3 : (sp2 ++ (numPart i2 f2 dot2 ++ [u2])).dropWhile isPySpace =
      numPart i2 f2 dot2 ++ [u2] :=
    dropWhile_append_of_all hs2 hnp2
  have hm2 : matchNumber (numPart i2 f2 dot2 ++ [u2]) = some ((i2, f2), [u2]) := by
    refine matchNumber_numPart _ hi2 hdi2 hdf2 hnd2 ?_
    intro c hc
    cases hc
    exact ⟨unit_not_digit hu2, unit_ne_dot hu2⟩
  have hdrop4 : ([u2] : List Char).dropWhile isPySpace = [u2] :=
    dropWhile_eq_self_of_head (fun c hc => by cases hc; exact unit_not_space hu2)
  have htu2 : takeUnit [u2] = (u2, []) := takeUnit_unit _ hu2
  have hmn : matchNormal (normalChars i1 f1 dot1 u1 sp1 sp2 i2 f2 dot2 u2) =
      some ((i1, f1), u1, (i2, f2), u2) := by
    rw [matchNormal, hm1]
    simp only [hdrop1, htu1, hdrop2, hdrop3, hm2, hdrop4, htu2, if_true]
  show parseDurationChars (normalChars i1 f1 dot1 u1 sp1 sp2 i2 f2 dot2 u2) = _
  rw [parseDurationChars]
  simp only [hstrip, hmn]

/-- Modelled from the spec: the function `sample_duration` lives in the
module `ra_helpers`, which is not among the sources; per the spec (Duration
spec, §3), the realized duration of a parsed spec `(μ, σ)` is `μ` when
`σ = 0` and `max ε ω` when `σ > 0`, where `ω` is the drawn `Normal(μ, σ)`
sample and `ε` is a small positive floor. The draw and the floor are taken
as parameters. -/
def sample_duration (m sdev w eps : ℚ) : ℚ :=
  if sdev = 0 then m else max eps w

end Duration

namespace ResourceAgent

/-- A queued task as stored by `handle_task`:
`{'task_id': …, 'duration': …, 'id': …, 'task_type': …}`
(the retained original message is dropped from the model). -/
structure TaskInfo where
  task_id : String
  duration : ℚ
  id : String
  task_type : String
  deriving DecidableEq

/-- The `current_task` record built by `handle_time_update`. -/
structure CurrentTask where
  task_id : String
  completion_time : ℚ
  id : String
  task_type : String
  deriving DecidableEq

/-- The mutable module globals of `resource_agent.py`. -/
structure RAState where
  current_virtual_time : ℚ
  current_task : Option CurrentTask
  task_queue : List TaskInfo
  deriving DecidableEq

/-- The initial state of a Resource Agent process. -/
def raInit : RAState := { current_virtual_time := 0, current_task := none, task_queue := [] }

/-- Messages sent by the Resource Agent (`CompleteTask` to the principal,
`Reminder` to itself, `Hold`/`Passivate` to the TimeService). -/
inductive RAOut
  | completeTask (task_id id task_type : String)
  | reminder (roundId : String)
  | hold (roundId : String) (nextTime : ℚ)
  | passivate (roundId : String)
  deriving DecidableEq

/-- Outcome of the duration-parsing block of `handle_task`:
`sampled d` when `sample_duration(msg["duration"])` returns `d`;
`fallbackFloat d` when `sample_duration` raises and the `float(...)`
fallback returns `d`; `unparseable` when both raise. -/
inductive DurOutcome
  | sampled (d : ℚ)
  | fallbackFloat (d : ℚ)
  | unparseable
  deriving DecidableEq

/-- The realized duration value carried by a parse outcome (0 when the
parse failed; unused in that case). -/
def durValue : DurOutcome → ℚ
  | .sampled d => d
  | .fallbackFloat d => d
  | .unparseable => 0

/-- `handle_task` (reaction to `GiveTask`): drop the task when the duration
cannot be parsed or is non-positive, else append it to the queue tail.
No message is emitted and the task is never started here. -/
def handle_task (s : RAState) (taskId idv taskType : String) (dur : DurOutcome) : RAState :=
  match dur with
  | .unparseable => s
  | .sampled d =>
      if d ≤ 0 then s
      else { s with task_queue :=
        s.task_queue ++ [{ task_id := taskId, duration := d, id := idv, task_type := taskType }] }
  | .fallbackFloat d =>
      if d ≤ 0 then s
      else { s with task_queue :=
        s.task_queue ++ [{ task_id := taskId, duration := d, id := idv, task_type := taskType }] }

/-- `handle_time_update` (reaction to `TimeUpdate`): set the clock, complete
the current task when due, start the queue head when idle (completing it
immediately when its computed completion time is not in the future), then
send a self `Reminder`. Returns the new state and the emitted messages in
order. -/
def handle_time_update (s : RAState) (roundId : String) (now : ℚ) : RAState × List RAOut :=
  let s1 : RAState := { s with current_virtual_time := now }
  let step1 : RAState × List RAOut :=
    match s1.current_task with
    | some ct =>
        if ct.completion_time ≤ now then
          ({ s1 with current_task := none },
           [RAOut.completeTask ct.task_id ct.id ct.task_type])
        else (s1, [])
    | none => (s1, [])
  let s2 := step1.1
  let step2 : RAState × List RAOut :=
    match s2.current_task, s2.task_queue with
    | none, t :: rest =>
        let ctime := now + t.duration
        if ctime ≤ now then
          ({ s2 with task_queue := rest, current_task := none },
           [RAOut.completeTask t.task_id t.id t.task_type])
        else
          ({ s2 with task_queue := rest,
                     current_task := some { task_id := t.task_id, completion_time := ctime,
                                            id := t.id, task_type := t.task_type } }, [])
    | _, _ => (s2, [])
  (step2.1, step1.2 ++ step2.2 ++ [RAOut.reminder roundId])

/-- `handle_reminder` (reaction to the self `Reminder`): reply `Hold` with
the completion time (clamped to `now + 0.1` when not in the future) when
executing, else reply `Passivate`. -/
def handle_reminder (s : RAState) (roundId : String) : RAState × List RAOut :=
  match s.current_task with
  | some ct =>
      let nt := if ct.completion_time ≤ s.current_virtual_time
                then s.current_virtual_time + 1 / 10 else ct.completion_time
      (s, [RAOut.hold roundId nt])
  | none => (s, [RAOut.passivate roundId])

/-- An inbound event processed by the Resource Agent's event loop. -/
inductive RAEvent
  | giveTask (taskId idv taskType : String) (dur : DurOutcome)
  | timeUpdate (roundId : String) (now : ℚ)
  | reminder (roundId : String)

/-- One step of the Resource Agent: dispatch an event to its handler. -/
def raStep : RAEvent → RAState → RAState × List RAOut
  | .giveTask tid idv ty dur, s => (handle_task s tid idv ty dur, [])
  | .timeUpdate rid now, s => handle_time_update s rid now
  | .reminder rid, s => handle_reminder s rid

/-- A run of the Resource Agent over a list of events, accumulating the
emitted messages in order. -/
def raRun : List RAEvent → RAState → RAState × List RAOut
  | [], s => (s, [])
  | e :: es, s =>
      let p := raStep e s
      let q := raRun es p.1
      (q.1, p.2 ++ q.2)

/-- The identity `(task_id, id, task_type)` of a task. -/
def taskKey (t : TaskInfo) : String × String × String := (t.task_id, t.id, t.task_type)

/-- The identities of the tasks an event adds to the queue (empty unless it
is an accepted `GiveTask`). -/
def acceptedOf : RAEvent → List (String × String × String)
  | .giveTask tid idv ty dur =>
      match dur with
      | .unparseable => []
      | .sampled d => if d ≤ 0 then [] else [(tid, idv, ty)]
      | .fallbackFloat d => if d ≤ 0 then [] else [(tid, idv, ty)]
  | _ => []

/-- The identities of the tasks accepted over a run, in arrival order. -/
def acceptedTasks (es : List RAEvent) : List (String × String × String) :=
  (es.map acceptedOf).flatten

/-- The identities carried by the `CompleteTask` messages of an output
list, in emission order. -/
def completions (outs : List RAOut) : List (String × String × String) :=
  outs.filterMap fun o =>
    match o with
    | .completeTask tid idv ty => some (tid, idv, ty)
    | _ => none

/-- The identity of the currently executing task, as a list. -/
def currentKeys (s : RAState) : List (String × String × String) :=
  match s.current_task with
  | some ct => [(ct.task_id, ct.id, ct.task_type)]
  | none => []

/-- The identities of the queued tasks, in order. -/
def queueKeys (s : RAState) : List (String × String × String) :=
  s.task_queue.map taskKey

lemma completions_append (a b : List RAOut) :
    completions (a ++ b) = completions a ++ completions b :=
  List.filterMap_append a b _

lemma currentKeys_set_queue (s : RAState) (q : List TaskInfo) :
    currentKeys { s with task_queue := q } = currentKeys s := rfl

/-- One Resource Agent step conserves task identities: the tasks completed
by the step followed by the still-held tasks are the previously held tasks
followed by the newly accepted ones. -/
lemma raStep_track (e : RAEvent) (s : RAState) :
    completions (raStep e s).2 ++ currentKeys (raStep e s).1 ++ queueKeys (raStep e s).1
      = currentKeys s ++ queueKeys s ++ acceptedOf e := by
  cases e with
  | giveTask tid idv ty dur =>
      cases dur with
      | unparseable => simp [raStep, handle_task, acceptedOf, completions]
      | sampled d =>
          by_cases hd : d ≤ 0 <;>
            simp [raStep, handle_task, acceptedOf, completions, hd, queueKeys, taskKey,
              currentKeys_set_queue, List.append_assoc]
      | fallbackFloat d =>
          by_cases hd : d ≤ 0 <;>
            simp [raStep, handle_task, acceptedOf, completions, hd, queueKeys, taskKey,
              currentKeys_set_queue, List.append_assoc]
  | timeUpdate rid now =>
      obtain ⟨cvt, cur, queue⟩ := s
      cases cur with
      | some ct =>
          by_cases h1 : ct.completion_time ≤ now
          · cases queue with
            | nil =>
                simp [raStep, handle_time_update, completions, currentKeys, queueKeys,
                  acceptedOf, h1]
            | cons t rest =>
                by_cases h2 : now + t.duration ≤ now <;>
                  simp [raStep, handle_time_update, completions, currentKeys, queueKeys,
                    acceptedOf, taskKey, h1, h2]
          · simp [raStep, handle_time_update, completions, currentKeys, queueKeys,
              acceptedOf, h1]
      | none =>
          cases queue with
          | nil =>
              simp [raStep, handle_time_update, completions, currentKeys, queueKeys, acceptedOf]
          | cons t rest =>
              by_cases h2 : now + t.duration ≤ now <;>
                simp [raStep, handle_time_update, completions, currentKeys, queueKeys,
                  acceptedOf, taskKey, h2]
  | reminder rid =>
      cases hc : s.current_task <;>
        simp [raStep, handle_reminder, completions, currentKeys, queueKeys, acceptedOf, hc]

/-- Run-level conservation of task identities. -/
lemma raRun_track : ∀ (es : List RAEvent) (s : RAState),
    completions (raRun es s).2 ++ currentKeys (raRun es s).1 ++ queueKeys (raRun es s).1
      = currentKeys s ++ queueKeys s ++ acceptedTasks es
  | [], s => by simp [raRun, acceptedTasks, completions]
  | e :: es, s => by
      have h1 := raStep_track e s
      have ih := raRun_track es (raStep e s).1
      show completions ((raStep e s).2 ++ (raRun es (raStep e s).1).2)
          ++ currentKeys (raRun es (raStep e s).1).1
          ++ queueKeys (raRun es (raStep e s).1).1
          = currentKeys s ++ queueKeys s ++ acceptedTasks (e :: es)
      calc completions ((raStep e s).2 ++ (raRun es (raStep e s).1).2)
          ++ currentKeys (raRun es (raStep e s).1).1
          ++ queueKeys (raRun es (raStep e s).1).1
          = completions (raStep e s).2
            ++ (completions (raRun es (raStep e s).1).2
              ++ currentKeys (raRun es (raStep e s).1).1
              ++ queueKeys (raRun es (raStep e s).1).1) := by
            rw [completions_append]
            simp [List.append_assoc]
        _ = completions (raStep e s).2
            ++ (currentKeys (raStep e s).1 ++ queueKeys (raStep e s).1
              ++ acceptedTasks es) := by rw [ih]
        _ = completions (raStep e s).2 ++ currentKeys (raStep e s).1
            ++ queueKeys (raStep e s).1 ++ acceptedTasks es := by
            simp [List.append_assoc]
        _ = currentKeys s ++ queueKeys s ++ acceptedOf e ++ acceptedTasks es := by rw [h1]
        _ = currentKeys s ++ queueKeys s ++ acceptedTasks (e :: es) := by
            simp [acceptedTasks, List.append_assoc]

/-- From the initial state, the sequence of `CompleteTask` identities of
any run is an initial segment of the sequence of accepted-task identities:
completions happen in exact FIFO arrival order. -/
lemma completions_prefix_accepted (es : List RAEvent) :
    completions (raRun es raInit).2 <+: acceptedTasks es := by
  have h := raRun_track es raInit
  simp only [raInit, currentKeys, queueKeys, List.map_nil, List.nil_append,
    List.append_assoc] at h
  exact ⟨currentKeys (raRun es raInit).1 ++ queueKeys (raRun es raInit).1, h⟩

/-- Every completed task identity of a run was accepted by some event of
the run. -/
lemma completions_subset_accepted {es : List RAEvent}
    {k : String × String × String} (hk : k ∈ completions (raRun es raInit).2) :
    k ∈ acceptedTasks es :=
  (completions_prefix_accepted es).sublist.mem hk

end ResourceAgent

namespace TimeService

/-- Python `str.split('_')`: split at every underscore; a list of parts,
never empty. -/
def pySplitUnderscore : List Char → List (List Char)
  | [] => [[]]
  | c :: rest =>
      if c = '_' then [] :: pySplitUnderscore rest
      else
        match pySplitUnderscore rest with
        | h :: t => (c :: h) :: t
        | [] => [[c]]

/-- The digits of a Python `int()` literal, as a value; `none` when the
text is empty or contains a non-digit. -/
def pyIntDigits (ds : List Char) : Option ℕ :=
  if ds ≠ [] ∧ ds.all Duration.isPyDigit then
    some (ds.foldl (fun a c => 10 * a + (c.toNat - 48)) 0)
  else none

/-- Python `int(str)`: strip whitespace, read an optional sign and a
non-empty digit string; `none` models the raised `ValueError`. -/
def pyInt (cs : List Char) : Option ℤ :=
  match Duration.pyStrip cs with
  | '+' :: ds => (pyIntDigits ds).map (fun n => (n : ℤ))
  | '-' :: ds => (pyIntDigits ds).map (fun n => -(n : ℤ))
  | ds => (pyIntDigits ds).map (fun n => (n : ℤ))

/-- `int(round_id_str.split('_')[1])` with `IndexError`/`ValueError`
modelled as `none`. -/
def parse_round (roundIdStr : String) : Option ℤ :=
  match (pySplitUnderscore roundIdStr.data).get? 1 with
  | none => none
  | some part => pyInt part

/-- The mutable module globals of `timeservice_agent.py`, plus the
`max_rounds` module attribute and a `halted` flag modelling process
shutdown (`os.kill(os.getpid(), SIGTERM)`). -/
structure TSState where
  virtual_time : ℚ
  round_number : ℕ
  participating_agents : Finset String
  round_agent_next_times : List (String × ℚ)
  round_responses : ℕ → Finset String
  agent_last_response : String → ℕ
  max_rounds : ℕ
  halted : Bool

/-- Insert-or-overwrite on a Python dict kept as an association list in
insertion order. -/
def updateAssoc : List (String × ℚ) → String → ℚ → List (String × ℚ)
  | [], k, v => [(k, v)]
  | (k1, v1) :: rest, k, v =>
      if k1 = k then (k, v) :: rest else (k1, v1) :: updateAssoc rest k v

/-- `min(d.values())` on a non-empty dict (junk value 0 on an empty one). -/
def dictMin : List (String × ℚ) → ℚ
  | [] => 0
  | p :: ps => ps.foldl (fun a q => min a q.2) p.2

/-- `advance_virtual_time`: shut down at `max_rounds`; otherwise advance
the clock to `max(T, min of the requested times)` (unchanged when no time
was requested), increment the round, clear the request map and create the
new round's empty response set. -/
def advance_virtual_time (s : TSState) : TSState :=
  if s.max_rounds ≤ s.round_number then { s with halted := true }
  else
    let next_virtual_time :=
      if s.round_agent_next_times = [] then s.virtual_time
      else max s.virtual_time (dictMin s.round_agent_next_times)
    { s with
      virtual_time := next_virtual_time,
      round_number := s.round_number + 1,
      round_agent_next_times := [],
      round_responses := Function.update s.round_responses (s.round_number + 1) ∅ }

/-- `handle_hold`: parse the round from the correlator (warn and ignore on
failure), ignore stale rounds and duplicates, else record the response and
the requested time and advance when every participant has replied. -/
def handle_hold (s : TSState) (agentName : String) (nextTime : ℚ)
    (roundIdStr : String) : TSState :=
  match parse_round roundIdStr with
  | none => s
  | some rid =>
      if rid = (s.round_number : ℤ) then
        if agentName ∈ s.round_responses s.round_number then s
        else
          let resp := insert agentName (s.round_responses s.round_number)
          let s1 : TSState :=
            { s with
              round_responses := Function.update s.round_responses s.round_number resp,
              round_agent_next_times := updateAssoc s.round_agent_next_times agentName nextTime,
              agent_last_response := Function.update s.agent_last_response agentName
                s.round_number }
          if resp.card = s.participating_agents.card then advance_virtual_time s1 else s1
      else s

/-- `handle_passivate`: as `handle_hold` but without recording a requested
time. -/
def handle_passivate (s : TSState) (agentName : String) (roundIdStr : String) : TSState :=
  match parse_round roundIdStr with
  | none => s
  | some rid =>
      if rid = (s.round_number : ℤ) then
        if agentName ∈ s.round_responses s.round_number then s
        else
          let resp := insert agentName (s.round_responses s.round_number)
          let s1 : TSState :=
            { s with
              round_responses := Function.update s.round_responses s.round_number resp,
              agent_last_response := Function.update s.agent_last_response agentName
                s.round_number }
          if resp.card = s.participating_agents.card then advance_virtual_time s1 else s1
      else s

/-- `monitor_round_timeout` firing for the current round: the survivors are
the agents that responded; evict the rest and force-advance, or terminate
when no agent responded. -/
def monitor_round_timeout (s : TSState) : TSState :=
  let responding := s.round_responses s.round_number
  let s1 : TSState := { s with participating_agents := responding }
  if responding = ∅ then { s1 with halted := true } else advance_virtual_time s1

/-- An observable event processed by the TimeService event loop: an inbound
`Hold` or `Passivate`, or the expiry of the current round's watchdog
timeout. -/
inductive TSEvent
  | hold (agentName : String) (nextTime : ℚ) (roundIdStr : String)
  | passivate (agentName : String) (roundIdStr : String)
  | timeout

/-- One step of the TimeService (a halted process handles nothing). -/
def tsStep (e : TSEvent) (s : TSState) : TSState :=
  if s.halted then s
  else
    match e with
    | .hold a nt rid => handle_hold s a nt rid
    | .passivate a rid => handle_passivate s a rid
    | .timeout => monitor_round_timeout s

/-- A run of the TimeService over a list of events. -/
def tsRun : List TSEvent → TSState → TSState
  | [], s => s
  | e :: es, s => tsRun es (tsStep e s)

/-- The module globals at process start, with the participant set read from
the configuration and `max_rounds` from the command line. -/
def initialState (participants : Finset String) (maxRounds : ℕ) : TSState :=
  { virtual_time := 0,
    round_number := 0,
    participating_agents := participants,
    round_agent_next_times := [],
    round_responses := fun _ => ∅,
    agent_last_response := fun _ => 0,
    max_rounds := maxRounds,
    halted := false }

/-- `start_coordination`: the first advance performed on startup, before
any message is handled. -/
def start_coordination (participants : Finset String) (maxRounds : ℕ) : TSState :=
  advance_virtual_time (initialState participants maxRounds)

/-- The per-agent round correlator `f"round_{round_id}_{agent_name}"` used
by `send_time_updates`. -/
def mkRoundId (r : ℕ) (agent : String) : String :=
  "round_" ++ toString r ++ "_" ++ agent

/-- The `TimeUpdate` payload `(roundId, now)` broadcast to an agent right
after an advance: `send_time_updates(virtual_time, round_number)` reads the
post-advance globals. -/
def timeUpdatePayload (s : TSState) (agent : String) : String × ℚ :=
  (mkRoundId s.round_number agent, s.virtual_time)

lemma advance_mono (s : TSState) :
    s.virtual_time ≤ (advance_virtual_time s).virtual_time := by
  rw [advance_virtual_time]
  by_cases h : s.max_rounds ≤ s.round_number
  · rw [if_pos h]
  · rw [if_neg h]
    simp only []
    by_cases hn : s.round_agent_next_times = []
    · rw [if_pos hn]
    · rw [if_neg hn]
      exact le_max_left _ _

lemma handle_hold_mono (s : TSState) (a : String) (nt : ℚ) (rid : String) :
    s.virtual_time ≤ (handle_hold s a nt rid).virtual_time := by
  rw [handle_hold]
  split
  · exact le_refl _
  · split
    · split
      · exact le_refl _
      · dsimp only
        split
        · exact advance_mono _
        · exact le_refl _
    · exact le_refl _

lemma handle_passivate_mono (s : TSState) (a : String) (rid : String) :
    s.virtual_time ≤ (handle_passivate s a rid).virtual_time := by
  rw [handle_passivate]
  split
  · exact le_refl _
  · split
    · split
      · exact le_refl _
      · dsimp only
        split
        · exact advance_mono _
        · exact le_refl _
    · exact le_refl _

lemma monitor_round_timeout_mono (s : TSState) :
    s.virtual_time ≤ (monitor_round_timeout s).virtual_time := by
  rw [monitor_round_timeout]
  split
  · exact le_refl _
  · exact advance_mono _

lemma tsStep_mono (e : TSEvent) (s : TSState) :
    s.virtual_time ≤ (tsStep e s).virtual_time := by
  unfold tsStep
  split
  · exact le_refl _
  · cases e with
    | hold a nt rid => exact handle_hold_mono s a nt rid
    | passivate a rid => exact handle_passivate_mono s a rid
    | timeout => exact monitor_round_timeout_mono s

lemma tsRun_mono : ∀ (es : List TSEvent) (s : TSState),
    s.virtual_time ≤ (tsRun es s).virtual_time
  | [], _ => le_refl _
  | e :: es, s => le_trans (tsStep_mono e s) (tsRun_mono es (tsStep e s))

/-- A Hold or Passivate event whose sender belongs to the current
participant set (always true of the watchdog timeout). -/
def goodEvent (s : TSState) : TSEvent → Prop
  | .hold a _ _ => a ∈ s.participating_agents
  | .passivate a _ => a ∈ s.participating_agents
  | .timeout => True

/-- Scheduler invariant: while the process runs, the current round's
response set is a strict subset of the participant set. -/
def TSInv (s : TSState) : Prop :=
  s.halted = false → s.round_responses s.round_number ⊂ s.participating_agents

/-- States reachable from startup through events whose Hold/Passivate
senders are participants at the time of processing. -/
inductive GoodReach (P : Finset String) (mr : ℕ) : TSState → Prop
  | init : GoodReach P mr (start_coordination P mr)
  | step (s : TSState) (e : TSEvent) : GoodReach P mr s → goodEvent s e →
      GoodReach P mr (tsStep e s)

lemma advance_participants (s : TSState) :
    (advance_virtual_time s).participating_agents = s.participating_agents := by
  rw [advance_virtual_time]
  split <;> rfl

lemma advance_inv (s : TSState) (hne : s.participating_agents.Nonempty) :
    TSInv (advance_virtual_time s) := by
  intro hh
  rw [advance_virtual_time]
  rw [advance_virtual_time] at hh
  by_cases h : s.max_rounds ≤ s.round_number
  · rw [if_pos h] at hh
    cases hh
  · rw [if_neg h]
    simp only [Function.update_same]
    exact Finset.empty_ssubset.mpr hne

lemma insert_resp_inv {s : TSState} {a : String} (hinv : TSInv s)
    (hh : s.halted = false) (ha : a ∈ s.participating_agents) :
    insert a (s.round_responses s.round_number) ⊆ s.participating_agents :=
  Finset.insert_subset ha (hinv hh).subset

lemma handle_hold_inv {s : TSState} (a : String) (nt : ℚ) (rid : String)
    (hinv : TSInv s) (hh : s.halted = false) (ha : a ∈ s.participating_agents) :
    TSInv (handle_hold s a nt rid) := by
  rw [handle_hold]
  split
  · exact hinv
  · split
    · split
      · exact hinv
      · dsimp only
        split
        next hcard =>
            apply advance_inv
            exact ⟨a, ha⟩
        next hcard =>
            intro _
            refine Finset.ssubset_iff_subset_ne.mpr ⟨?_, ?_⟩
            · simp only [Function.update_same]
              exact insert_resp_inv hinv hh ha
            · simp only [Function.update_same]
              intro heq
              exact hcard (by rw [heq])
    · exact hinv

lemma handle_passivate_inv {s : TSState} (a : String) (rid : String)
    (hinv : TSInv s) (hh : s.halted = false) (ha : a ∈ s.participating_agents) :
    TSInv (handle_passivate s a rid) := by
  rw [handle_passivate]
  split
  · exact hinv
  · split
    · split
      · exact hinv
      · dsimp only
        split
        next hcard =>
            apply advance_inv
            exact ⟨a, ha⟩
        next hcard =>
            intro _
            refine Finset.ssubset_iff_subset_ne.mpr ⟨?_, ?_⟩
            · simp only [Function.update_same]
              exact insert_resp_inv hinv hh ha
            · simp only [Function.update_same]
              intro heq
              exact hcard (by rw [heq])
    · exact hinv

lemma monitor_round_timeout_inv {s : TSState} (_hinv : TSInv s)
    (_hh : s.halted = false) : TSInv (monitor_round_timeout s) := by
  rw [monitor_round_timeout]
  split
  next => intro hhh; cases hhh
  next hne =>
      apply advance_inv
      exact Finset.nonempty_iff_ne_empty.mpr hne

lemma tsStep_inv {s : TSState} {e : TSEvent} (hinv : TSInv s)
    (hg : goodEvent s e) : TSInv (tsStep e s) := by
  unfold tsStep
  by_cases hh : s.halted
  · rw [if_pos hh]
    exact hinv
  · rw [if_neg hh]
    rw [Bool.not_eq_true] at hh
    cases e with
    | hold a nt rid => exact handle_hold_inv a nt rid hinv hh hg
    | passivate a rid => exact handle_passivate_inv a rid hinv hh hg
    | timeout => exact monitor_round_timeout_inv hinv hh

lemma advance_round_eq {s : TSState}
    (hadv : (advance_virtual_time s).round_number = s.round_number + 1) :
    advance_virtual_time s =
      { s with
        virtual_time :=
          if s.round_agent_next_times = [] then s.virtual_time
          else max s.virtual_time (dictMin s.round_agent_next_times),
        round_number := s.round_number + 1,
        round_agent_next_times := [],
        round_responses := Function.update s.round_responses (s.round_number + 1) ∅ } := by
  rw [advance_virtual_time] at hadv ⊢
  by_cases h : s.max_rounds ≤ s.round_number
  · rw [if_pos h] at hadv
    exact absurd hadv (Nat.succ_ne_self s.round_number).symm
  · rw [if_neg h]

lemma tsStep_hold_eq {s : TSState} {a : String} {nt : ℚ} {rid : String}
    (hh : s.halted = false) :
    tsStep (TSEvent.hold a nt rid) s = handle_hold s a nt rid := by
  simp [tsStep, hh]

lemma tsStep_passivate_eq {s : TSState} {a : String} {rid : String}
    (hh : s.halted = false) :
    tsStep (TSEvent.passivate a rid) s = handle_passivate s a rid := by
  simp [tsStep, hh]

lemma tsStep_timeout_eq {s : TSState} (hh : s.halted = false) :
    tsStep TSEvent.timeout s = monitor_round_timeout s := by
  simp [tsStep, hh]

lemma tsStep_halted {s : TSState} (e : TSEvent) (hh : s.halted = true) :
    tsStep e s = s := by
  simp [tsStep, hh]

/-- When a `Hold` for the current round completes the barrier and the round
advances, the frozen response set of the finished round is exactly the
participant set. -/
lemma barrier_handle_hold {s : TSState} {a : String} {nt : ℚ} {rid : String}
    (hinv : TSInv s) (hh : s.halted = false) (ha : a ∈ s.participating_agents)
    (hadv : (handle_hold s a nt rid).round_number = s.round_number + 1) :
    (handle_hold s a nt rid).round_responses s.round_number
      = s.participating_agents := by
  cases hp : parse_round rid with
  | none =>
      rw [handle_hold.eq_def, hp] at hadv
      exact absurd hadv (Nat.succ_ne_self s.round_number).symm
  | some r =>
      simp only [handle_hold, hp] at hadv ⊢
      by_cases hr : r = (s.round_number : ℤ)
      · rw [if_pos hr] at hadv ⊢
        by_cases hdup : a ∈ s.round_responses s.round_number
        · rw [if_pos hdup] at hadv
          exact absurd hadv (Nat.succ_ne_self s.round_number).symm
        · rw [if_neg hdup] at hadv ⊢
          by_cases hcard : (insert a (s.round_responses s.round_number)).card
              = s.participating_agents.card
          · rw [if_pos hcard] at hadv ⊢
            rw [advance_round_eq hadv]
            simp only [Function.update_noteq (Nat.succ_ne_self s.round_number).symm,
              Function.update_same]
            exact Finset.eq_of_subset_of_card_le (insert_resp_inv hinv hh ha)
              (le_of_eq hcard.symm)
          · rw [if_neg hcard] at hadv
            exact absurd hadv (Nat.succ_ne_self s.round_number).symm
      · rw [if_neg hr] at hadv
        exact absurd hadv (Nat.succ_ne_self s.round_number).symm

/-- As `barrier_handle_hold`, for `Passivate`. -/
lemma barrier_handle_passivate {s : TSState} {a : String} {rid : String}
    (hinv : TSInv s) (hh : s.halted = false) (ha : a ∈ s.participating_agents)
    (hadv : (handle_passivate s a rid).round_number = s.round_number + 1) :
    (handle_passivate s a rid).round_responses s.round_number
      = s.participating_agents := by
  cases hp : parse_round rid with
  | none =>
      rw [handle_passivate.eq_def, hp] at hadv
      exact absurd hadv (Nat.succ_ne_self s.round_number).symm
  | some r =>
      simp only [handle_passivate, hp] at hadv ⊢
      by_cases hr : r = (s.round_number : ℤ)
      · rw [if_pos hr] at hadv ⊢
        by_cases hdup : a ∈ s.round_responses s.round_number
        · rw [if_pos hdup] at hadv
          exact absurd hadv (Nat.succ_ne_self s.round_number).symm
        · rw [if_neg hdup] at hadv ⊢
          by_cases hcard : (insert a (s.round_responses s.round_number)).card
              = s.participating_agents.card
          · rw [if_pos hcard] at hadv ⊢
            rw [advance_round_eq hadv]
            simp only [Function.update_noteq (Nat.succ_ne_self s.round_number).symm,
              Function.update_same]
            exact Finset.eq_of_subset_of_card_le (insert_resp_inv hinv hh ha)
              (le_of_eq hcard.symm)
          · rw [if_neg hcard] at hadv
            exact absurd hadv (Nat.succ_ne_self s.round_number).symm
      · rw [if_neg hr] at hadv
        exact absurd hadv (Nat.succ_ne_self s.round_number).symm

/-- When the watchdog timeout forces a round advance, the new participant
set is a strict subset of the previous one. -/
lemma barrier_timeout {s : TSState} (hinv : TSInv s) (hh : s.halted = false)
    (hadv : (monitor_round_timeout s).round_number = s.round_number + 1) :
    (monitor_round_timeout s).participating_agents ⊂ s.participating_agents := by
  simp only [monitor_round_timeout] at hadv ⊢
  by_cases hresp : s.round_responses s.round_number = ∅
  · rw [if_pos hresp] at hadv
    exact absurd hadv (Nat.succ_ne_self s.round_number).symm
  · rw [if_neg hresp] at hadv ⊢
    rw [advance_round_eq hadv]
    exact hinv hh

lemma start_coordination_inv (P : Finset String) (mr : ℕ) (hne : P.Nonempty) :
    TSInv (start_coordination P mr) :=
  advance_inv _ hne

lemma goodReach_inv {P : Finset String} {mr : ℕ} {s : TSState}
    (hne : P.Nonempty) (hr : GoodReach P mr s) : TSInv s := by
  induction hr with
  | init => exact start_coordination_inv P mr hne
  | step s e _ hg ih => exact tsStep_inv ih hg

lemma pySplitUnderscore_ne_nil : ∀ cs : List Char, pySplitUnderscore cs ≠ []
  | [] => by simp [pySplitUnderscore]
  | c :: rest => by
      rw [pySplitUnderscore]
      by_cases hc : c = '_'
      · rw [if_pos hc]
        simp
      · rw [if_neg hc]
        cases hr : pySplitUnderscore rest with
        | nil => exact absurd hr (pySplitUnderscore_ne_nil rest)
        | cons h t => simp

/-- Splitting a correlator that starts with `round_1_`: the part at index 1
is `"1"` whatever the agent-name suffix. -/
lemma pySplitUnderscore_round1 (l : List Char) :
    pySplitUnderscore ('r' :: 'o' :: 'u' :: 'n' :: 'd' :: '_' :: '1' :: '_' :: l)
      = ['r', 'o', 'u', 'n', 'd'] :: ['1'] :: pySplitUnderscore l := by
  obtain ⟨h, t, heq⟩ := List.exists_cons_of_ne_nil (pySplitUnderscore_ne_nil l)
  simp [pySplitUnderscore, heq]

/-- A correlator built for round 1 always parses back to round 1. -/
lemma parse_round_mkRoundId_one (agent : String) :
    parse_round (mkRoundId 1 agent) = some 1 := by
  have hdata : (mkRoundId 1 agent).data
      = 'r' :: 'o' :: 'u' :: 'n' :: 'd' :: '_' :: '1' :: '_' :: agent.data := by
    show ("round_" ++ toString (1 : ℕ) ++ "_" ++ agent).data = _
    rw [String.data_append, String.data_append, String.data_append]
    rfl
  rw [parse_round, hdata, pySplitUnderscore_round1]
  rfl

end TimeService

open Duration ResourceAgent TimeService

/-- C1: when the TimeService completes a round below `max_rounds` and
advances, the new virtual time is `max(T, min of the recorded next_times)`
when the request map is non-empty and the old `T` unchanged when it is
empty; in particular a minimum below `T` is clamped: the next `T` equals
the prior `T`, never a smaller value. -/
theorem C1_advance_clamp : ∀ s : TSState, s.round_number < s.max_rounds →
    (s.round_agent_next_times = [] →
      (advance_virtual_time s).virtual_time = s.virtual_time) ∧
    (s.round_agent_next_times ≠ [] →
      (advance_virtual_time s).virtual_time
        = max s.virtual_time (dictMin s.round_agent_next_times)) ∧
    (dictMin s.round_agent_next_times < s.virtual_time →
      (advance_virtual_time s).virtual_time = s.virtual_time) ∧
    (advance_virtual_time s).round_number = s.round_number + 1 := by
  intro s hr
  have hmax : ¬ s.max_rounds ≤ s.round_number := Nat.not_le.mpr hr
  refine ⟨?_, ?_, ?_, ?_⟩
  · intro hn
    rw [advance_virtual_time, if_neg hmax]
    simp only [hn, if_pos]
  · intro hn
    rw [advance_virtual_time, if_neg hmax]
    simp only [hn, if_neg, if_false]
  · intro hlt
    rw [advance_virtual_time, if_neg hmax]
    by_cases hn : s.round_agent_next_times = []
    · simp only [hn, if_pos]
    · simp only [hn, if_false]
      exact max_eq_left (le_of_lt hlt)
  · rw [advance_virtual_time, if_neg hmax]

/-- A sample TimeService state: round 1, `T = 5`, one participant whose
recorded next time 3 lies in the past. -/
def tsPastRequest : TSState :=
  { virtual_time := 5,
    round_number := 1,
    participating_agents := {"A"},
    round_agent_next_times := [("A", 3)],
    round_responses := fun _ => ∅,
    agent_last_response := fun _ => 0,
    max_rounds := 200,
    halted := false }

theorem C1_witness :
    tsPastRequest.round_number < tsPastRequest.max_rounds ∧
    dictMin tsPastRequest.round_agent_next_times < tsPastRequest.virtual_time ∧
    (advance_virtual_time tsPastRequest).virtual_time = tsPastRequest.virtual_time :=
  ⟨by norm_num [tsPastRequest],
   by norm_num [tsPastRequest, dictMin],
   (C1_advance_clamp tsPastRequest (by norm_num [tsPastRequest])).2.2.1
     (by norm_num [tsPastRequest, dictMin])⟩

/-- C2: the virtual clock is non-decreasing across every observable state
change: every handled Hold or Passivate, every watchdog firing, every run
of such events, and every direct advance can only keep or increase `T`. -/
theorem C2_monotonic_clock :
    (∀ (e : TSEvent) (s : TSState), s.virtual_time ≤ (tsStep e s).virtual_time) ∧
    (∀ (es : List TSEvent) (s : TSState), s.virtual_time ≤ (tsRun es s).virtual_time) ∧
    (∀ s : TSState, s.virtual_time ≤ (advance_virtual_time s).virtual_time) :=
  ⟨tsStep_mono, tsRun_mono, advance_mono⟩

/-- C6: a Hold or Passivate with a malformed correlator, a stale round, or
a duplicate sender leaves the whole scheduler state unchanged — the handler
returns without touching `T`, `R`, any response set or any recorded
next_time, and a malformed correlator is never treated as the current
round. -/
theorem C6_bad_correlator_ignored : ∀ (s : TSState) (a : String) (nt : ℚ) (rid : String),
    (parse_round rid = none ∨
     (∃ r, parse_round rid = some r ∧ r ≠ (s.round_number : ℤ)) ∨
     (parse_round rid = some (s.round_number : ℤ) ∧ a ∈ s.round_responses s.round_number)) →
    handle_hold s a nt rid = s ∧ handle_passivate s a rid = s := by
  intro s a nt rid h
  rcases h with h | ⟨r, hp, hr⟩ | ⟨hp, hdup⟩
  · constructor
    · rw [handle_hold.eq_def, h]
    · rw [handle_passivate.eq_def, h]
  · constructor
    · simp only [handle_hold, hp]
      rw [if_neg hr]
    · simp only [handle_passivate, hp]
      rw [if_neg hr]
  · constructor
    · simp only [handle_hold, hp, if_true]
      rw [if_pos hdup]
    · simp only [handle_passivate, hp, if_true]
      rw [if_pos hdup]

theorem C6_witness :
    (∃ r, parse_round "round_9_A" = some r ∧ r ≠ (tsPastRequest.round_number : ℤ)) ∧
    handle_hold tsPastRequest "A" 7 "round_9_A" = tsPastRequest ∧
    handle_passivate tsPastRequest "A" "round_9_A" = tsPastRequest :=
  ⟨⟨9, by decide, by decide⟩,
   C6_bad_correlator_ignored tsPastRequest "A" 7 "round_9_A"
     (Or.inr (Or.inl ⟨9, by decide, by decide⟩))⟩

/-- C3 counterexample: with participants `{A, B}`, a Hold from the outsider
`C` followed by a Hold from `A` completes the barrier count and advances
round 1 to round 2, although `B` (a participant from the start of round 1)
never replied and no watchdog fired — the participant set is unchanged, not
strictly reduced.  Barrier completeness fails once agents outside the
participant set reply. -/
theorem C3_counterexample :
    (start_coordination {"A", "B"} 200).round_number = 1 ∧
    "B" ∈ (start_coordination {"A", "B"} 200).participating_agents ∧
    (tsStep (TSEvent.hold "C" 5 "round_1_C") (start_coordination {"A", "B"} 200)).round_number
      = 1 ∧
    (tsStep (TSEvent.hold "A" 3 "round_1_A")
        (tsStep (TSEvent.hold "C" 5 "round_1_C")
          (start_coordination {"A", "B"} 200))).round_number = 2 ∧
    "B" ∉ (tsStep (TSEvent.hold "A" 3 "round_1_A")
        (tsStep (TSEvent.hold "C" 5 "round_1_C")
          (start_coordination {"A", "B"} 200))).round_responses 1 ∧
    (tsStep (TSEvent.hold "A" 3 "round_1_A")
        (tsStep (TSEvent.hold "C" 5 "round_1_C")
          (start_coordination {"A", "B"} 200))).participating_agents
      = (start_coordination {"A", "B"} 200).participating_agents := by
  refine ⟨by decide, by decide, by decide, by decide, by decide, by decide⟩

/-- C3 amended: provided every Hold/Passivate processed comes from an agent
in the current participant set, barrier completeness holds on every
reachable state: when a step advances the round, either it was a reply and
every participant is in the finished round's frozen response set, or it was
the watchdog timeout and the participant set strictly shrinks. -/
theorem C3_barrier_amended :
    ∀ (P : Finset String) (mr : ℕ) (s : TSState) (e : TSEvent),
    P.Nonempty → GoodReach P mr s → goodEvent s e →
    (tsStep e s).round_number = s.round_number + 1 →
    (e ≠ TSEvent.timeout →
      s.participating_agents ⊆ (tsStep e s).round_responses s.round_number) ∧
    (e = TSEvent.timeout →
      (tsStep e s).participating_agents ⊂ s.participating_agents) := by
  intro P mr s e hne hreach hg hadv
  have hinv : TSInv s := goodReach_inv hne hreach
  by_cases hh : s.halted = true
  · rw [tsStep_halted e hh] at hadv
    exact absurd hadv (Nat.succ_ne_self s.round_number).symm
  · rw [Bool.not_eq_true] at hh
    cases e with
    | hold a nt rid =>
        rw [tsStep_hold_eq hh] at hadv ⊢
        refine ⟨fun _ => ?_, fun ht => TSEvent.noConfusion ht⟩
        rw [barrier_handle_hold hinv hh hg hadv]
    | passivate a rid =>
        rw [tsStep_passivate_eq hh] at hadv ⊢
        refine ⟨fun _ => ?_, fun ht => TSEvent.noConfusion ht⟩
        rw [barrier_handle_passivate hinv hh hg hadv]
    | timeout =>
        rw [tsStep_timeout_eq hh] at hadv ⊢
        refine ⟨fun hne2 => absurd rfl hne2, fun _ => ?_⟩
        exact barrier_timeout hinv hh hadv

theorem C3_witness :
    ({"A"} : Finset String).Nonempty ∧
    GoodReach {"A"} 200 (start_coordination {"A"} 200) ∧
    goodEvent (start_coordination {"A"} 200) (TSEvent.hold "A" 5 "round_1_A") ∧
    (tsStep (TSEvent.hold "A" 5 "round_1_A") (start_coordination {"A"} 200)).round_number
      = (start_coordination {"A"} 200).round_number + 1 ∧
    (start_coordination {"A"} 200).participating_agents ⊆
      (tsStep (TSEvent.hold "A" 5 "round_1_A")
        (start_coordination {"A"} 200)).round_responses
        (start_coordination {"A"} 200).round_number :=
  ⟨⟨"A", by decide⟩, GoodReach.init,
   show "A" ∈ (start_coordination {"A"} 200).participating_agents from by decide,
   by decide,
   (C3_barrier_amended {"A"} 200 (start_coordination {"A"} 200)
      (TSEvent.hold "A" 5 "round_1_A") ⟨"A", by decide⟩ GoodReach.init
      (show "A" ∈ (start_coordination {"A"} 200).participating_agents from by decide)
      (by decide)).1
     (fun h => TSEvent.noConfusion h)⟩

/-- C9 counterexample: at startup `T = 0` and `R = 0`, but the immediate
first advance increments the round before broadcasting, so the first
TimeUpdate carries the correlator `round_1_A` — whose embedded round is 1,
not 0 — and replies to it are counted for round 1. -/
theorem C9_counterexample :
    (initialState {"A", "B"} 200).round_number = 0 ∧
    (start_coordination {"A", "B"} 200).round_number = 1 ∧
    timeUpdatePayload (start_coordination {"A", "B"} 200) "A" = ("round_1_A", 0) ∧
    parse_round "round_1_A" = some 1 ∧ (1 : ℤ) ≠ 0 := by
  refine ⟨by decide, by decide, ?_, by decide, by decide⟩
  show (mkRoundId (start_coordination {"A", "B"} 200).round_number "A",
      (start_coordination {"A", "B"} 200).virtual_time) = ("round_1_A", 0)
  have h1 : (start_coordination {"A", "B"} 200).round_number = 1 := by decide
  have h2 : (start_coordination {"A", "B"} 200).virtual_time = 0 := by
    norm_num [start_coordination, advance_virtual_time, initialState]
  rw [h1, h2]
  refine Prod.ext ?_ rfl
  decide

/-- C9 amended: at startup `T = 0` and `R = 0`; the TimeService immediately
advances (the empty bootstrap round 0 leaves `T = 0`) and broadcasts the
first TimeUpdate from round 1, so every participant's first TimeUpdate
carries `now = 0` and the correlator `round_1_<agent>`, whose embedded
round number parses to 1; replies to it are counted for round 1. -/
theorem C9_first_update_amended :
    ∀ (P : Finset String) (mr : ℕ) (agent : String), 0 < mr →
    (initialState P mr).virtual_time = 0 ∧
    (initialState P mr).round_number = 0 ∧
    (start_coordination P mr).round_number = 1 ∧
    (start_coordination P mr).virtual_time = 0 ∧
    timeUpdatePayload (start_coordination P mr) agent = (mkRoundId 1 agent, 0) ∧
    parse_round (mkRoundId 1 agent) = some 1 ∧
    (start_coordination P mr).round_responses 1 = ∅ := by
  intro P mr agent hmr
  have hmax : ¬ mr ≤ 0 := Nat.not_le.mpr hmr
  have hs : start_coordination P mr =
      { virtual_time := 0, round_number := 1, participating_agents := P,
        round_agent_next_times := [],
        round_responses := Function.update (fun _ => (∅ : Finset String)) 1 ∅,
        agent_last_response := fun _ => 0, max_rounds := mr, halted := false } := by
    rw [start_coordination, advance_virtual_time]
    simp only [initialState]
    rw [if_neg hmax]
    norm_num
  refine ⟨rfl, rfl, by rw [hs], by rw [hs], ?_, parse_round_mkRoundId_one agent, ?_⟩
  · rw [timeUpdatePayload, hs]
  · rw [hs]
    simp only [Function.update]
    split <;> rfl

theorem C9_witness :
    0 < 200 ∧
    (start_coordination {"A"} 200).round_number = 1 ∧
    timeUpdatePayload (start_coordination {"A"} 200) "A" = (mkRoundId 1 "A", 0) :=
  ⟨by decide,
   (C9_first_update_amended {"A"} 200 "A" (by decide)).2.2.1,
   (C9_first_update_amended {"A"} 200 "A" (by decide)).2.2.2.2.1⟩

/-- C4: on each TimeUpdate a Resource Agent completes its current task
(emitting its CompleteTask) exactly when it is executing and `now` has
reached the completion time; when it then is idle with a non-empty queue it
pops the head and starts it with `completion_time = now + duration`, which
is in the future unless `now + duration ≤ now`, in which case the task is
completed immediately; an undue executing task leaves everything but the
clock unchanged. -/
theorem C4_time_update : ∀ (s : RAState) (rid : String) (now : ℚ),
    (∀ ct, s.current_task = some ct →
      (ct.completion_time ≤ now ↔
        RAOut.completeTask ct.task_id ct.id ct.task_type ∈ (handle_time_update s rid now).2)) ∧
    (∀ ct, s.current_task = some ct → ¬ ct.completion_time ≤ now →
      (handle_time_update s rid now).1 = { s with current_virtual_time := now } ∧
      (handle_time_update s rid now).2 = [RAOut.reminder rid]) ∧
    ((s.current_task = none ∨ ∃ ct, s.current_task = some ct ∧ ct.completion_time ≤ now) →
      ∀ t rest, s.task_queue = t :: rest →
        (handle_time_update s rid now).1.task_queue = rest ∧
        (¬ now + t.duration ≤ now →
          (handle_time_update s rid now).1.current_task
            = some { task_id := t.task_id, completion_time := now + t.duration,
                     id := t.id, task_type := t.task_type } ∧
          now < now + t.duration) ∧
        (now + t.duration ≤ now →
          (handle_time_update s rid now).1.current_task = none ∧
          RAOut.completeTask t.task_id t.id t.task_type ∈ (handle_time_update s rid now).2)) ∧
    ((s.current_task = none ∨ ∃ ct, s.current_task = some ct ∧ ct.completion_time ≤ now) →
      s.task_queue = [] → (handle_time_update s rid now).1.current_task = none) := by
  intro s rid now
  obtain ⟨cvt, cur, queue⟩ := s
  refine ⟨?_, ?_, ?_, ?_⟩
  · intro ct hct
    cases cur with
    | none => cases hct
    | some ct0 =>
        cases hct
        by_cases h1 : ct.completion_time ≤ now
        · refine ⟨fun _ => ?_, fun _ => h1⟩
          cases queue with
          | nil => simp [handle_time_update, h1]
          | cons t rest =>
              by_cases h2 : now + t.duration ≤ now <;>
                simp [handle_time_update, h1, h2]
        · refine ⟨fun hc => absurd hc h1, fun hmem => ?_⟩
          exfalso
          cases queue with
          | nil => simp [handle_time_update, h1] at hmem
          | cons t rest => simp [handle_time_update, h1] at hmem
  · intro ct hct hlt
    cases cur with
    | none => cases hct
    | some ct0 =>
        cases hct
        cases queue with
        | nil => exact ⟨by simp [handle_time_update, hlt], by simp [handle_time_update, hlt]⟩
        | cons t rest =>
            exact ⟨by simp [handle_time_update, hlt], by simp [handle_time_update, hlt]⟩
  · intro hidle t rest hq
    cases hq
    rcases hidle with hc | ⟨ct, hct, hdue⟩
    · cases hc
      by_cases h2 : now + t.duration ≤ now <;>
        refine ⟨by simp [handle_time_update, h2], fun h3 => ?_, fun h3 => ?_⟩
      · exact absurd h2 h3
      · exact ⟨by simp [handle_time_update, h2], by simp [handle_time_update, h2]⟩
      · exact ⟨by simp [handle_time_update, h2], lt_of_not_le h3⟩
      · exact absurd h3 h2
    · cases hct
      by_cases h2 : now + t.duration ≤ now <;>
        refine ⟨by simp [handle_time_update, hdue, h2], fun h3 => ?_, fun h3 => ?_⟩
      · exact absurd h2 h3
      · exact ⟨by simp [handle_time_update, hdue, h2], by simp [handle_time_update, hdue, h2]⟩
      · exact ⟨by simp [handle_time_update, hdue, h2], lt_of_not_le h3⟩
      · exact absurd h3 h2
  · intro hidle hq
    cases hq
    rcases hidle with hc | ⟨ct, hct, hdue⟩
    · cases hc
      simp [handle_time_update]
    · cases hct
      simp [handle_time_update, hdue]

/-- The executing task used by the sample states below. -/
def ctSample : CurrentTask :=
  { task_id := "t1", completion_time := 2, id := "c1", task_type := "X" }

/-- A sample Resource Agent state: executing task `t1` with completion time
2, with task `t2` queued. -/
def raExec : RAState :=
  { current_virtual_time := 0,
    current_task := some ctSample,
    task_queue := [{ task_id := "t2", duration := 1, id := "c2", task_type := "X" }] }

theorem C4_witness :
    raExec.current_task = some ctSample ∧
    (ctSample.completion_time ≤ 3 ↔
      RAOut.completeTask "t1" "c1" "X" ∈ (handle_time_update raExec "r" 3).2) :=
  ⟨rfl, (C4_time_update raExec "r" 3).1 ctSample rfl⟩

/-- C5: per Resource Agent, tasks complete in strict FIFO arrival order:
over any run from the initial state the sequence of CompleteTask identities
is an initial segment of the sequence of accepted-task identities (so an
earlier-accepted task completes before any later-accepted one, and a task
not yet completed when the run ends never overtakes); moreover the queue is
never popped while a task is executing and not yet due. -/
theorem C5_fifo :
    (∀ es : List RAEvent, completions (raRun es raInit).2 <+: acceptedTasks es) ∧
    (∀ (s : RAState) (rid : String) (now : ℚ) (ct : CurrentTask),
      s.current_task = some ct → ¬ ct.completion_time ≤ now →
      (handle_time_update s rid now).1.task_queue = s.task_queue) := by
  constructor
  · exact completions_prefix_accepted
  · intro s rid now ct hct hlt
    obtain ⟨cvt, cur, queue⟩ := s
    cases hct
    cases queue with
    | nil => simp [handle_time_update, hlt]
    | cons t rest => simp [handle_time_update, hlt]

theorem C5_witness :
    raExec.current_task = some ctSample ∧
    ¬ ctSample.completion_time ≤ 1 ∧
    (handle_time_update raExec "r" 1).1.task_queue = raExec.task_queue :=
  ⟨rfl, by norm_num [ctSample],
   C5_fifo.2 raExec "r" 1 ctSample rfl (by norm_num [ctSample])⟩

/-- C7: on GiveTask, a duration that fails both parsing paths or whose
realized value is non-positive makes the handler drop the task, leaving the
state (queue included) unchanged; otherwise the task is appended to the
queue tail with everything else unchanged, so it is never started
immediately; and an identity never accepted never appears in any
CompleteTask of any run. -/
theorem C7_give_task : ∀ (s : RAState) (tid idv ty : String) (dur : DurOutcome),
    ((dur = DurOutcome.unparseable ∨ durValue dur ≤ 0) →
      handle_task s tid idv ty dur = s) ∧
    (dur ≠ DurOutcome.unparseable → 0 < durValue dur →
      handle_task s tid idv ty dur
        = { s with task_queue := s.task_queue
            ++ [{ task_id := tid, duration := durValue dur, id := idv, task_type := ty }] }) ∧
    (∀ es : List RAEvent, (∀ k ∈ acceptedTasks es, k.1 ≠ tid) →
      ∀ k ∈ completions (raRun es raInit).2, k.1 ≠ tid) := by
  intro s tid idv ty dur
  refine ⟨?_, ?_, ?_⟩
  · intro h
    rcases h with rfl | hd
    · rfl
    · cases dur with
      | unparseable => rfl
      | sampled d =>
          simp only [durValue] at hd
          simp only [handle_task]
          rw [if_pos hd]
      | fallbackFloat d =>
          simp only [durValue] at hd
          simp only [handle_task]
          rw [if_pos hd]
  · intro hne hpos
    cases dur with
    | unparseable => exact absurd rfl hne
    | sampled d =>
        simp only [durValue] at hpos
        simp only [handle_task, durValue]
        rw [if_neg (not_le.mpr hpos)]
    | fallbackFloat d =>
        simp only [durValue] at hpos
        simp only [handle_task, durValue]
        rw [if_neg (not_le.mpr hpos)]
  · intro es hacc k hk
    exact hacc k (completions_subset_accepted hk)

theorem C7_witness :
    handle_task raInit "t" "c" "X" DurOutcome.unparseable = raInit ∧
    durValue (DurOutcome.sampled (-1)) ≤ 0 ∧
    handle_task raInit "t" "c" "X" (DurOutcome.sampled (-1)) = raInit ∧
    0 < durValue (DurOutcome.sampled 1) ∧
    handle_task raInit "t" "c" "X" (DurOutcome.sampled 1)
      = { raInit with task_queue := raInit.task_queue
          ++ [{ task_id := "t", duration := durValue (DurOutcome.sampled 1),
                id := "c", task_type := "X" }] } :=
  ⟨(C7_give_task raInit "t" "c" "X" DurOutcome.unparseable).1 (Or.inl rfl),
   by norm_num [durValue],
   (C7_give_task raInit "t" "c" "X" (DurOutcome.sampled (-1))).1
     (Or.inr (by norm_num [durValue])),
   by norm_num [durValue],
   (C7_give_task raInit "t" "c" "X" (DurOutcome.sampled 1)).2.1
     (fun h => DurOutcome.noConfusion h) (by norm_num [durValue])⟩

/-- C8: `parse_duration` maps a fixed `<number><unit>` string to
`(value · k_unit, 0)` in days, with `k_d = 1`, `k_h = 1/24`,
`k_m = 1/1440`, `k_s = 1/86400` and default unit `d`; a
`<number><unit> ± <number><unit>` string is converted to days and rejected
exactly when `mean − 2·std < 0` — in particular `"2d±1.5d"` is rejected at
parse time while `"2d±0.5d"` returns `(2.0, 0.5)`. -/
theorem C8_parse_duration_spec :
    (∀ (i f : List Char) (dot : Bool) (u : Option Char),
      i ≠ [] → (∀ c ∈ i, isPyDigit c = true) → (∀ c ∈ f, isPyDigit c = true) →
      (dot = false → f = []) → (∀ x, u = some x → x ∈ unitChars) →
      parse_duration (String.mk (fixedChars i f dot u))
        = some (numVal (i, f) * unitMult (u.getD 'd'), 0)) ∧
    (∀ (i1 f1 i2 f2 sp1 sp2 : List Char) (dot1 dot2 : Bool) (u1 u2 : Char),
      i1 ≠ [] → (∀ c ∈ i1, isPyDigit c = true) → (∀ c ∈ f1, isPyDigit c = true) →
      (dot1 = false → f1 = []) →
      i2 ≠ [] → (∀ c ∈ i2, isPyDigit c = true) → (∀ c ∈ f2, isPyDigit c = true) →
      (dot2 = false → f2 = []) →
      u1 ∈ unitChars → u2 ∈ unitChars →
      (∀ c ∈ sp1, isPySpace c = true) → (∀ c ∈ sp2, isPySpace c = true) →
      parse_duration (String.mk (normalChars i1 f1 dot1 u1 sp1 sp2 i2 f2 dot2 u2))
        = if numVal (i1, f1) * unitMult u1 - 2 * (numVal (i2, f2) * unitMult u2) < 0
          then none
          else some (numVal (i1, f1) * unitMult u1, numVal (i2, f2) * unitMult u2)) ∧
    parse_duration "2d±1.5d" = none ∧
    parse_duration "2d±0.5d" = some (2, 1 / 2) ∧
    unitMult 'd' = 1 ∧ unitMult 'h' = 1 / 24 ∧ unitMult 'm' = 1 / 1440 ∧
    unitMult 's' = 1 / 86400 := by
  refine ⟨parse_duration_fixed, parse_duration_normal, ?_, ?_, ?_, ?_, ?_, ?_⟩
  · have h : matchNormal (pyStrip "2d±1.5d".data)
        = some ((['2'], []), 'd', (['1'], ['5']), 'd') := by decide
    simp only [parse_duration, parseDurationChars, h]
    norm_num [numVal, unitMult, show digitsToVal ['2'] = 2 from by decide,
      show digitsToVal ['1'] = 1 from by decide, show digitsToVal ['5'] = 5 from by decide,
      show digitsToVal [] = 0 from by decide]
  · have h : matchNormal (pyStrip "2d±0.5d".data)
        = some ((['2'], []), 'd', (['0'], ['5']), 'd') := by decide
    simp only [parse_duration, parseDurationChars, h]
    norm_num [numVal, unitMult, show digitsToVal ['2'] = 2 from by decide,
      show digitsToVal ['0'] = 0 from by decide, show digitsToVal ['5'] = 5 from by decide,
      show digitsToVal [] = 0 from by decide]
  · rfl
  · rfl
  · rfl
  · rfl

theorem C8_witness :
    (['3'] : List Char) ≠ [] ∧
    parse_duration (String.mk (fixedChars ['3'] [] false (some 'h')))
      = some (numVal (['3'], []) * unitMult ((some 'h').getD 'd'), 0) ∧
    parse_duration (String.mk (normalChars ['2'] [] false 'd' [] [] ['1'] [] false 'd'))
      = if numVal (['2'], []) * unitMult 'd' - 2 * (numVal (['1'], []) * unitMult 'd') < 0
        then none
        else some (numVal (['2'], []) * unitMult 'd', numVal (['1'], []) * unitMult 'd') :=
  ⟨by decide,
   C8_parse_duration_spec.1 ['3'] [] false (some 'h') (by decide) (by decide) (by decide)
     (fun _ => rfl) (fun x hx => by cases hx; decide),
   C8_parse_duration_spec.2.1 ['2'] [] ['1'] [] [] [] false false 'd' 'd' (by decide)
     (by decide) (by decide) (fun _ => rfl) (by decide) (by decide) (by decide)
     (fun _ => rfl) (by decide) (by decide) (by decide) (by decide)⟩

/-- C10: `parse_duration` does not enforce positivity — `"0"` and `"0d"`,
and generally every fixed-format string with numeric value zero, parse to
`(0, 0)` without error; positivity is enforced only later, by the Resource
Agent's GiveTask handler dropping any task whose realized duration is
non-positive (as happens to the sampled realization of a `(0, 0)` spec). -/
theorem C10_zero_duration :
    parse_duration "0" = some (0, 0) ∧
    parse_duration "0d" = some (0, 0) ∧
    (∀ (i f : List Char) (dot : Bool) (u : Option Char),
      i ≠ [] → (∀ c ∈ i, isPyDigit c = true) → (∀ c ∈ f, isPyDigit c = true) →
      (dot = false → f = []) → (∀ x, u = some x → x ∈ unitChars) →
      numVal (i, f) = 0 →
      parse_duration (String.mk (fixedChars i f dot u)) = some (0, 0)) ∧
    (∀ (s : RAState) (tid idv ty : String) (d : ℚ), d ≤ 0 →
      handle_task s tid idv ty (DurOutcome.sampled d) = s) ∧
    (∀ (s : RAState) (tid idv ty : String) (w eps : ℚ),
      handle_task s tid idv ty (DurOutcome.sampled (sample_duration 0 0 w eps)) = s) := by
  refine ⟨?_, ?_, ?_, ?_, ?_⟩
  · have h1 : matchNormal (pyStrip "0".data) = none := by decide
    have h2 : matchFixed (pyStrip "0".data) = some ((['0'], []), 'd') := by decide
    simp only [parse_duration, parseDurationChars, h1, h2]
    norm_num [numVal, unitMult, show digitsToVal ['0'] = 0 from by decide,
      show digitsToVal [] = 0 from by decide]
  · have h1 : matchNormal (pyStrip "0d".data) = none := by decide
    have h2 : matchFixed (pyStrip "0d".data) = some ((['0'], []), 'd') := by decide
    simp only [parse_duration, parseDurationChars, h1, h2]
    norm_num [numVal, unitMult, show digitsToVal ['0'] = 0 from by decide,
      show digitsToVal [] = 0 from by decide]
  · intro i f dot u hi hdi hdf hnd hu h0
    rw [parse_duration_fixed i f dot u hi hdi hdf hnd hu, h0, zero_mul]
  · intro s tid idv ty d hd
    simp only [handle_task]
    rw [if_pos hd]
  · intro s tid idv ty w eps
    have h : sample_duration 0 0 w eps = 0 := by simp [sample_duration]
    rw [h]
    simp only [handle_task]
    rw [if_pos le_rfl]

theorem C10_witness :
    numVal (['0'], []) = 0 ∧
    parse_duration (String.mk (fixedChars ['0'] [] false none)) = some (0, 0) ∧
    (-1 : ℚ) ≤ 0 ∧
    handle_task raInit "t" "c" "X" (DurOutcome.sampled (-1)) = raInit :=
  ⟨by norm_num [numVal, show digitsToVal ['0'] = 0 from by decide,
     show digitsToVal ([] : List Char) = 0 from by decide],
   C10_zero_duration.2.2.1 ['0'] [] false none (by decide) (by decide) (by decide)
     (fun _ => rfl) (fun x hx => by cases hx)
     (by norm_num [numVal, show digitsToVal ['0'] = 0 from by decide,
       show digitsToVal ([] : List Char) = 0 from by decide]),
   by norm_num,
   C10_zero_duration.2.2.2.1 raInit "t" "c" "X" (-1) (by norm_num)⟩

end KikoSim
